import Mathlib

/-!
Shallow embedding of `pyocr/builders.py`: the `Box`/`LineBox` geometric data
model, the Tesseract-dialect hOCR word/line parser (`_WordHTMLParser`), the
Cuneiform-dialect character-position parser (`_LineHTMLParser`), the batch
`read_file`/`write_file` paths of `WordBoxBuilder`/`LineBoxBuilder`, and the
incremental `start_line`/`add_word`/`end_line`/`get_output` interface.

Strings are Lean `String`s; Python ints are `Int`; Python exceptions are an
explicit `PErr` error carried in `Except`.  The HTML transport layer
(`html.parser.HTMLParser` / `xml.dom.minidom`, both Python standard library,
not repository code) is abstracted to the stream of start-tag / data /
end-tag events it delivers to the handlers defined in `builders.py`.
-/

/-- Python exceptions that the modelled code can raise. -/
inductive PErr where
  | indexError
  | typeError
  | valueError
  | invalidPosition (title : String)
deriving DecidableEq, Repr

instance {e a : Type} [DecidableEq e] [DecidableEq a] : DecidableEq (Except e a) := fun x y =>
  match x, y with
  | .error u, .error v =>
    if h : u = v then .isTrue (by rw [h]) else .isFalse (fun hc => h (Except.error.inj hc))
  | .ok u, .ok v =>
    if h : u = v then .isTrue (by rw [h]) else .isFalse (fun hc => h (Except.ok.inj hc))
  | .error _, .ok _ => .isFalse (fun hc => Except.noConfusion hc)
  | .ok _, .error _ => .isFalse (fun hc => Except.noConfusion hc)

/-- A box position `((min_x, min_y), (max_x, max_y))`, integer pixel coordinates. -/
abbrev Pos := (Int × Int) × (Int × Int)

/-- `Box` from `builders.py`: content string, position, confidence (default 0). -/
structure Box where
  content : String
  position : Pos
  confidence : Int := 0
deriving DecidableEq, Repr

/-- `LineBox` from `builders.py`: a list of word boxes plus the line's own position. -/
structure LineBox where
  word_boxes : List Box
  position : Pos
deriving DecidableEq, Repr

/-- The comparison chain of `Box.__box_cmp`: walk the pairs in order and return
the sign of the first strict inequality, `0` if all pairs are ties. -/
def cmpPairs : List (Int × Int) → Int
  | [] => 0
  | (x, y) :: rest => if x < y then -1 else if x > y then 1 else cmpPairs rest

/-- `Box.__box_cmp(self, other)` for `other` an actual `Box` (the Python
`other is None` guard is unreachable in the typed embedding): compare by
top y, bottom y, left x, right x. -/
def boxCmp (s o : Box) : Int :=
  cmpPairs [(s.position.1.2, o.position.1.2),
            (s.position.2.2, o.position.2.2),
            (s.position.1.1, o.position.1.1),
            (s.position.2.1, o.position.2.1)]

/-- `Box.__lt__`: `self.__box_cmp(other) < 0`. -/
def pyLt (a b : Box) : Bool := boxCmp a b < 0

/-- `Box.__eq__`: `self.__box_cmp(other) == 0`. -/
def pyBoxEq (a b : Box) : Bool := boxCmp a b = 0

/-- Python `x & 0xFF` on an arbitrary `int` equals the floor-mod `x % 256`. -/
def pyAnd255 (x : Int) : Int := x.emod 256

/-- The `position_hash` accumulator of `Box.__hash__`: the four masked
coordinates shifted by 0, 8, 16 and 24 bits and summed. -/
def positionHash (p : Pos) : Int :=
  pyAnd255 p.1.1 + pyAnd255 p.1.2 * 256 + pyAnd255 p.2.1 * 65536 +
    pyAnd255 p.2.2 * 16777216

/-- `Box.__hash__`: `position_hash ^ hash(self.content) ^ hash(self.content)`.
Python's randomized string hash is an arbitrary function `hashStr`. -/
def boxHash (hashStr : String → Int) (b : Box) : Int :=
  Int.xor (Int.xor (positionHash b.position) (hashStr b.content)) (hashStr b.content)

/-- Python `str.strip()` on the character list of a string. -/
def pyStripChars (l : List Char) : List Char :=
  ((l.dropWhile Char.isWhitespace).reverse.dropWhile Char.isWhitespace).reverse

/-- Python `str.strip()`. -/
def pyStrip (s : String) : String := ⟨pyStripChars s.data⟩

/-- Python `str.startswith`. -/
def pyStartswith (pre s : String) : Bool := pre.data.isPrefixOf s.data

/-- Python `str.split(sep)` for a separator `s0 :: stail`, on character lists:
cut at every occurrence of the separator, keeping empty pieces.  Every step
consumes at least one character, so running the scan on `l.length` fuel (see
`pySplitAux`) is exact; the fuel keeps the recursion structural. -/
def pySplitFuel (s0 : Char) (stail : List Char) : Nat → List Char → List (List Char)
  | _, [] => [[]]
  | 0, l => [l]
  | fuel + 1, c :: rest =>
    if c = s0 ∧ stail.isPrefixOf rest then
      [] :: pySplitFuel s0 stail fuel (rest.drop stail.length)
    else
      match pySplitFuel s0 stail fuel rest with
      | [] => [[c]]
      | h :: t => (c :: h) :: t

/-- The separator scan at its exact fuel. -/
def pySplitAux (s0 : Char) (stail : List Char) (l : List Char) : List (List Char) :=
  pySplitFuel s0 stail l.length l

/-- Python `str.split(sep)` with a non-empty separator (the sole case used by
`builders.py`; Python raises on an empty separator, modelled as a single piece). -/
def pySplit (sep s : String) : List String :=
  match sep.data with
  | [] => [s]
  | c :: cs => (pySplitAux c cs s.data).map (fun l => ⟨l⟩)

/-- Decimal digits of a natural number, most significant first. -/
def digitsOf (n : Nat) : List Nat :=
  if _h : n < 10 then [n]
  else digitsOf (n / 10) ++ [n % 10]
decreasing_by exact Nat.div_lt_self (by omega) (by omega)

/-- The character of a decimal digit. -/
def digitChar10 (d : Nat) : Char :=
  match d with
  | 0 => '0' | 1 => '1' | 2 => '2' | 3 => '3' | 4 => '4'
  | 5 => '5' | 6 => '6' | 7 => '7' | 8 => '8' | _ => '9'

/-- Characters of Python's `"%d" % n` for a natural number. -/
def natChars (n : Nat) : List Char := (digitsOf n).map digitChar10

/-- Characters of Python's `"%d" % i` for an `int`: optional minus sign then
decimal digits. -/
def intChars (i : Int) : List Char :=
  if i < 0 then '-' :: natChars (-i).toNat else natChars i.toNat

/-- Numeric value of a digit character. -/
def digitVal (c : Char) : Nat := c.toNat - 48

/-- Accumulate decimal digits onto `a`. -/
def valFrom (a : Nat) (l : List Nat) : Nat := l.foldl (fun x d => 10 * x + d) a

/-- Python `int(s)` on an already-stripped, sign-free character list: non-empty
all-digit strings parse, everything else raises `ValueError`. -/
def pyNatChars (l : List Char) : Except PErr Nat :=
  if l = [] then .error .valueError
  else if l.all Char.isDigit then .ok (valFrom 0 (l.map digitVal))
  else .error .valueError

/-- Python `int(s)`: strip whitespace, optional sign, decimal digits
(Python's underscore digit grouping is not modelled). -/
def pyInt (s : String) : Except PErr Int :=
  match pyStripChars s.data with
  | [] => .error .valueError
  | c :: rest =>
    if c = '-' then (pyNatChars rest).map (fun (n : Nat) => -(n : Int))
    else if c = '+' then (pyNatChars rest).map (fun (n : Nat) => (n : Int))
    else (pyNatChars (c :: rest)).map (fun (n : Nat) => (n : Int))

/-- Python `int(parts[i])`: out-of-range indexing raises `IndexError`. -/
def pyIntAt (parts : List String) (i : Nat) : Except PErr Int :=
  match parts.get? i with
  | none => .error .indexError
  | some s => pyInt s

/-- The loop of `_WordHTMLParser.__parse_confidence` over the `"; "`-pieces of a
title: the first piece starting with `"x_wconf"` is split on spaces and its
second token parsed as an int; if no piece matches, the confidence defaults to 0. -/
def parseConfidenceGo : List String → Except PErr Int
  | [] => .ok 0
  | piece :: rest =>
    if pyStartswith "x_wconf" (pyStrip piece) then
      match (pySplit " " (pyStrip piece)).get? 1 with
      | none => .error .indexError
      | some c => pyInt c
    else parseConfidenceGo rest

/-- `_WordHTMLParser.__parse_confidence`. -/
def parseConfidence (title : String) : Except PErr Int :=
  parseConfidenceGo (pySplit "; " title)

/-- The loop of `_WordHTMLParser.__parse_position`: the first `"; "`-piece
starting with `"bbox"` yields `((int(p[1]), int(p[2])), (int(p[3]), int(p[4])))`;
if no piece matches, `Exception("Invalid hocr position: ...")` is raised. -/
def parsePositionGo (title : String) : List String → Except PErr Pos
  | [] => .error (.invalidPosition title)
  | piece :: rest =>
    if pyStartswith "bbox" (pyStrip piece) then
      (do
        let a ← pyIntAt (pySplit " " (pyStrip piece)) 1
        let b ← pyIntAt (pySplit " " (pyStrip piece)) 2
        let c ← pyIntAt (pySplit " " (pyStrip piece)) 3
        let d ← pyIntAt (pySplit " " (pyStrip piece)) 4
        pure ((a, b), (c, d)))
    else parsePositionGo title rest

/-- `_WordHTMLParser.__parse_position`. -/
def parsePosition (title : String) : Except PErr Pos :=
  parsePositionGo title (pySplit "; " title)

/-- A markup event as delivered by Python's `HTMLParser` to the handlers. -/
inductive MEvent where
  | startTag (tag : String) (attrs : List (String × String))
  | dataTxt (s : String)
  | endTag (tag : String)
deriving DecidableEq, Repr

/-- `_WordHTMLParser.WORD_TAG_TYPES`. -/
def wordTagTypes : List String := ["ocr_word", "ocrx_word"]

/-- `_WordHTMLParser.LINE_TAG_TYPES`. -/
def lineTagTypes : List String := ["ocr_header", "ocr_footer", "ocr_line"]

/-- The mutable state of a `_WordHTMLParser` instance.  In Python the
`__current_box_*` and `__current_line_position` fields start as `None`; the
code only reads them after a successful start tag has set them (guarded by
`__current_box_text`/the tag-type stack), so they are carried here as plain
values with arbitrary initial contents. -/
structure WState where
  tag_types : List String
  cur_box_position : Pos
  cur_box_text : Option String
  cur_box_confidence : Int
  boxes : List Box
  cur_line_position : Pos
  cur_line_content : List Box
  lines : List LineBox
deriving DecidableEq, Repr

/-- A fresh `_WordHTMLParser`. -/
def initWState : WState :=
  ⟨[], ((0, 0), (0, 0)), none, 0, [], ((0, 0), (0, 0)), [], []⟩

/-- The attribute-scanning loop of the start-tag handlers: the last attribute
with the given name wins. -/
def lastAttr (name : String) (attrs : List (String × String)) : Option String :=
  attrs.foldl (fun acc a => if a.1 = name then some a.2 else acc) none

/-- The `try` block of `_WordHTMLParser.handle_starttag` for a word tag:
parse the confidence, then the position. -/
def wordTagAttempt (title : String) : Except PErr (Int × Pos) := do
  let c ← parseConfidence title
  let p ← parsePosition title
  pure (c, p)

/-- `_WordHTMLParser.handle_starttag`.  The Python tag-type list is appended
on the right and popped from the right; it is modelled as a stack with its top
at the head. -/
def wHandleStart (st : WState) (tag : String) (attrs : List (String × String)) :
    Except PErr WState :=
  if tag ≠ "span" then .ok st else
  match lastAttr "title" attrs, lastAttr "class" attrs with
  | none, _ => .ok st
  | some _, none => .ok st
  | some title, some tagType =>
    if tagType ∈ wordTagTypes then
      match wordTagAttempt title with
      | .error _ => .ok { st with tag_types := "ignore" :: st.tag_types }
      | .ok (conf, pos) =>
        .ok { st with cur_box_confidence := conf, cur_box_position := pos,
                      cur_box_text := some "",
                      tag_types := tagType :: st.tag_types }
    else if tagType ∈ lineTagTypes then
      match parsePosition title with
      | .error e => .error e
      | .ok pos =>
        .ok { st with cur_line_position := pos, cur_line_content := [],
                      tag_types := tagType :: st.tag_types }
    else .ok { st with tag_types := tagType :: st.tag_types }

/-- `_WordHTMLParser.handle_data`. -/
def wHandleData (st : WState) (s : String) : WState :=
  match st.cur_box_text with
  | none => st
  | some t => { st with cur_box_text := some (t ++ s) }

/-- `_WordHTMLParser.handle_endtag`: popping the empty tag-type stack raises
`IndexError`. -/
def wHandleEnd (st : WState) (tag : String) : Except PErr WState :=
  if tag ≠ "span" then .ok st else
  match st.tag_types with
  | [] => .error .indexError
  | tagType :: rest =>
    let st1 := { st with tag_types := rest }
    if tagType ∈ wordTagTypes then
      match st1.cur_box_text with
      | none => .ok st1
      | some txt =>
        let box : Box := ⟨txt, st1.cur_box_position, st1.cur_box_confidence⟩
        .ok { st1 with boxes := st1.boxes ++ [box],
                       cur_line_content := st1.cur_line_content ++ [box],
                       cur_box_text := none }
    else if tagType ∈ lineTagTypes then
      .ok { st1 with lines := st1.lines ++ [⟨st1.cur_line_content, st1.cur_line_position⟩],
                     cur_line_content := [] }
    else .ok st1

/-- Dispatch one event to the `_WordHTMLParser` handlers. -/
def wStep (st : WState) : MEvent → Except PErr WState
  | .startTag t a => wHandleStart st t a
  | .dataTxt s => .ok (wHandleData st s)
  | .endTag t => wHandleEnd st t

/-- `parser.feed(...)` for `_WordHTMLParser`: process the event stream left to
right; an uncaught exception aborts the whole parse. -/
def wFeed (evs : List MEvent) (st : WState) : Except PErr WState :=
  evs.foldlM wStep st

/-- The mutable state of a `_LineHTMLParser` instance. -/
structure LState where
  boxes : List Box
  line_text : Option String
  char_positions : Option (List String)
deriving DecidableEq, Repr

/-- A fresh `_LineHTMLParser`. -/
def initLState : LState := ⟨[], none, none⟩

/-- The class-scanning loop of `_LineHTMLParser.handle_starttag`: `ocr_line`
selects content (0), `ocr_cinfo` selects positions (1), any other class value
leaves the selector unchanged (initially -1). -/
def lClassFold (attrs : List (String × String)) : Int :=
  attrs.foldl (fun tt a =>
    if a.1 = "class" then
      if a.2 = "ocr_line" then 0 else if a.2 = "ocr_cinfo" then 1 else tt
    else tt) (-1)

/-- `_LineHTMLParser.handle_starttag`.  For a positions tag the title is split
on spaces, the leading token is stripped, a trailing empty token is dropped
(indexing `[-1]` on an empty list raises `IndexError`, slicing a still-`None`
value raises `TypeError`), and every `"-1"` sentinel is removed. -/
def lHandleStart (st : LState) (tag : String) (attrs : List (String × String)) :
    Except PErr LState :=
  if tag ≠ "span" then .ok st else
  let tt := lClassFold attrs
  if tt = 0 then .ok { st with line_text := some "", char_positions := some [] }
  else if tt = 1 then
    match attrs.foldl (fun acc a => if a.1 = "title" then some (pySplit " " a.2) else acc)
        st.char_positions with
    | none => .error .typeError
    | some cp0 =>
      let cp1 := cp0.drop 1
      match cp1.getLast? with
      | none => .error .indexError
      | some lastv =>
        let cp2 := if lastv = "" then cp1.dropLast else cp1
        .ok { st with char_positions := some (cp2.filter (fun x => x ≠ "-1")) }
  else .ok st

/-- `_LineHTMLParser.handle_data`. -/
def lHandleData (st : LState) (s : String) : LState :=
  match st.line_text with
  | none => st
  | some t => { st with line_text := some (t ++ s) }

/-- The per-character coordinate extraction of `_LineHTMLParser.handle_endtag`:
`[int(positions[x]) for x in range(start, 4*n, 4)]`. -/
def charVals (positions : List String) (start n : Nat) : Except PErr (List Int) :=
  (List.range n).mapM (fun k =>
    match positions.get? (4 * k + start) with
    | none => .error .indexError
    | some s => pyInt s)

/-- Python `min` over a list (raises `ValueError` on an empty list). -/
def lineMin (vs : List Int) : Except PErr Int :=
  match vs with
  | [] => .error .valueError
  | v :: rest => .ok (rest.foldl min v)

/-- Python `max` over a list (raises `ValueError` on an empty list). -/
def lineMax (vs : List Int) : Except PErr Int :=
  match vs with
  | [] => .error .valueError
  | v :: rest => .ok (rest.foldl max v)

/-- The word loop of `_LineHTMLParser.handle_endtag`: skip empty tokens,
consume four coordinates per character, aggregate min/max per side, and emit
one `Box` per word with default confidence 0.  Slicing a `None` coordinate
list raises `TypeError` at the first non-empty word. -/
def lEmitWords : List String → Option (List String) → List Box →
    Except PErr (Option (List String) × List Box)
  | [], cp, acc => .ok (cp, acc)
  | w :: ws, cp, acc =>
    if w = "" then lEmitWords ws cp acc
    else
      match cp with
      | none => .error .typeError
      | some cps => do
        let positions := cps.take (4 * w.length)
        let cps1 := cps.drop (4 * w.length)
        let lefts ← charVals positions 0 w.length
        let left_pos ← lineMin lefts
        let tops ← charVals positions 1 w.length
        let top_pos ← lineMin tops
        let rights ← charVals positions 2 w.length
        let right_pos ← lineMax rights
        let bottoms ← charVals positions 3 w.length
        let bottom_pos ← lineMax bottoms
        lEmitWords ws (some cps1)
          (acc ++ [⟨w, ((left_pos, top_pos), (right_pos, bottom_pos)), 0⟩])

/-- `_LineHTMLParser.handle_endtag` (the tag name is never inspected). -/
def lHandleEnd (st : LState) (_tag : String) : Except PErr LState :=
  if st.line_text = none ∨ st.char_positions = some [] then .ok st
  else
    match st.line_text with
    | none => .ok st
    | some txt => do
      let r ← lEmitWords (pySplit " " txt) st.char_positions []
      pure { st with boxes := st.boxes ++ r.2, char_positions := r.1, line_text := none }

/-- Dispatch one event to the `_LineHTMLParser` handlers. -/
def lStep (st : LState) : MEvent → Except PErr LState
  | .startTag t a => lHandleStart st t a
  | .dataTxt s => .ok (lHandleData st s)
  | .endTag t => lHandleEnd st t

/-- `parser.feed(...)` for `_LineHTMLParser`. -/
def lFeed (evs : List MEvent) (st : LState) : Except PErr LState :=
  evs.foldlM lStep st

/-- The trailing-empty-box normalization of the `read_file` loops: when the
last parsed box has empty content it is popped. -/
def popTrailingEmpty (bs : List Box) : List Box :=
  match bs.getLast? with
  | none => bs
  | some b => if b.content = "" then bs.dropLast else bs

/-- `WordBoxBuilder.read_file`: feed the document to `_WordHTMLParser`; if it
yields at least one box return its (normalized) boxes, otherwise feed the
same document to `_LineHTMLParser` and return its (normalized) boxes, `[]`
when both parsers yield nothing.  An exception from a parser propagates. -/
def wordBoxBuilderRead (doc : List MEvent) : Except PErr (List Box) := do
  let st1 ← wFeed doc initWState
  if st1.boxes ≠ [] then
    pure (popTrailingEmpty st1.boxes)
  else
    let st2 ← lFeed doc initLState
    if st2.boxes ≠ [] then
      pure (popTrailingEmpty st2.boxes)
    else
      pure []

/-- `LineBoxBuilder.read_file`: same probing order, but the first parser's
result is its `lines` (popping the flat `boxes` list does not alter the boxes
already inside lines) and the fallback parser's boxes are wrapped as singleton
`LineBox`es positioned at each box's own position. -/
def lineBoxBuilderRead (doc : List MEvent) : Except PErr (List LineBox) := do
  let st1 ← wFeed doc initWState
  if st1.boxes ≠ [] then
    pure st1.lines
  else
    let st2 ← lFeed doc initLState
    if st2.boxes ≠ [] then
      pure ((popTrailingEmpty st2.boxes).map (fun b => LineBox.mk [b] b.position))
    else
      pure []

/-- `LineBox.content`: word contents joined by single spaces, then stripped. -/
def LineBox.content (l : LineBox) : String :=
  pyStrip (l.word_boxes.foldl (fun acc b => acc ++ b.content ++ " ") "")

/-- `LineBoxBuilder.start_line`: a no-op while the last line's derived content
is empty, otherwise append a fresh empty line at the given position. -/
def lbStartLine (lines : List LineBox) (box : Pos) : List LineBox :=
  match lines.getLast? with
  | some lb => if lb.content = "" then lines else lines ++ [⟨[], box⟩]
  | none => lines ++ [⟨[], box⟩]

/-- `LineBoxBuilder.add_word`: append a word box to the last line
(`self.lines[-1]` raises `IndexError` when no line has been started). -/
def lbAddWord (lines : List LineBox) (word : String) (box : Pos) (conf : Int) :
    Except PErr (List LineBox) :=
  match lines.getLast? with
  | none => .error .indexError
  | some lb => .ok (lines.dropLast ++ [⟨lb.word_boxes ++ [⟨word, box, conf⟩], lb.position⟩])

/-- One incremental call on a `LineBoxBuilder`. -/
inductive BOp where
  | startLine (box : Pos)
  | addWord (word : String) (box : Pos) (conf : Int)
  | endLine
deriving Repr

/-- Dispatch one incremental call (`end_line` is a `pass`). -/
def lbStep (lines : List LineBox) : BOp → Except PErr (List LineBox)
  | .startLine b => .ok (lbStartLine lines b)
  | .addWord w b c => lbAddWord lines w b c
  | .endLine => .ok lines

/-- Run a sequence of incremental calls on a fresh `LineBoxBuilder`; the final
state is what `get_output` returns. -/
def lbRun (ops : List BOp) : Except PErr (List LineBox) :=
  ops.foldlM lbStep []

/-- `TextBuilder.start_line`: unconditionally begin a new empty output line. -/
def tbStartLine (built_text : List String) : List String := built_text ++ [""]

/-- The characters of the `"bbox %d %d %d %d"` token written by the
`get_xml_tag` serializers. -/
def bboxChars (p : Pos) : List Char :=
  "bbox ".data ++ intChars p.1.1 ++ [' '] ++ intChars p.1.2 ++ [' '] ++
    intChars p.2.1 ++ [' '] ++ intChars p.2.2

/-- The `title` attribute written by `LineBox.get_xml_tag`: `"bbox %d %d %d %d"`. -/
def lineTitle (p : Pos) : String := ⟨bboxChars p⟩

/-- The `title` attribute written by `Box.get_xml_tag`:
`"bbox %d %d %d %d; x_wconf %d"`. -/
def wordTitle (p : Pos) (conf : Int) : String :=
  ⟨bboxChars p ++ "; x_wconf ".data ++ intChars conf⟩

/-- `Box.get_xml_tag`: a `span` element with class `ocrx_word`, the formatted
title, and the box content as its text child. -/
def boxXmlTag (b : Box) : (String × List (String × String)) × String :=
  (("span", [("class", "ocrx_word"), ("title", wordTitle b.position b.confidence)]),
   b.content)

/-- Markup events of a single span element with a text child. -/
def spanEvents (e : (String × List (String × String)) × String) : List MEvent :=
  [.startTag e.1.1 e.1.2, .dataTxt e.2, .endTag e.1.1]

/-- Markup events of the fixed `_XHTML_HEADER` written by `write_file`. -/
def headerEvents : List MEvent :=
  [.startTag "html" [("xmlns", "http://www.w3.org/1999/xhtml")],
   .startTag "head" [],
   .startTag "meta" [("http-equiv", "content-type"),
                     ("content", "text/html; charset=utf-8")],
   .endTag "meta",
   .startTag "title" [],
   .dataTxt "OCR output",
   .endTag "title",
   .endTag "head"]

/-- The document written by `WordBoxBuilder.write_file`, as the event stream a
markup parser delivers: the fixed header, a body, and one `<p>`-wrapped
`get_xml_tag` span per box. -/
def writeFileEvents (boxes : List Box) : List MEvent :=
  headerEvents ++ [.startTag "body" []] ++
    (boxes.flatMap (fun b => [.startTag "p" []] ++ spanEvents (boxXmlTag b) ++
      [.endTag "p"])) ++
    [.endTag "body", .endTag "html"]

/-- One word span of a Tesseract-dialect document: either a well-formed word
(`title` carries a bbox, and an `x_wconf` token when a confidence is given) or
a word tag whose arbitrary title is expected not to parse. -/
inductive WordSpec where
  | good (content : String) (pos : Pos) (conf : Option Int)
  | bad (title : String) (txt : String)
deriving Repr

/-- The title of a well-formed word span: with `x_wconf` when a confidence is
present, bare `bbox` otherwise. -/
def goodWordTitle (p : Pos) : Option Int → String
  | some c => wordTitle p c
  | none => lineTitle p

/-- Markup events of one word span. -/
def wordSpecEvents : WordSpec → List MEvent
  | .good c p cf =>
    [.startTag "span" [("class", "ocrx_word"), ("title", goodWordTitle p cf)],
     .dataTxt c, .endTag "span"]
  | .bad t txt =>
    [.startTag "span" [("class", "ocrx_word"), ("title", t)],
     .dataTxt txt, .endTag "span"]

/-- One `ocr_line` span of a Tesseract-dialect document. -/
structure LineSpec where
  pos : Pos
  words : List WordSpec
deriving Repr

/-- Markup events of one line span and its nested word spans. -/
def lineSpecEvents (l : LineSpec) : List MEvent :=
  [.startTag "span" [("class", "ocr_line"), ("title", lineTitle l.pos)]] ++
    l.words.flatMap wordSpecEvents ++ [.endTag "span"]

/-- A Tesseract-dialect document: a sequence of line spans, each containing a
sequence of word spans. -/
def tessDoc (ls : List LineSpec) : List MEvent := ls.flatMap lineSpecEvents

/-- The boxes the word parser emits for one word span: exactly the well-formed
words, with confidence 0 when no `x_wconf` token is present. -/
def wordSpecBoxes : WordSpec → List Box
  | .good c p cf => [⟨c, p, cf.getD 0⟩]
  | .bad _ _ => []

/-- The word boxes of one line spec. -/
def lineSpecBoxes (l : LineSpec) : List Box := l.words.flatMap wordSpecBoxes

/-- The flat box list the word parser emits for a whole document. -/
def goodBoxes (ls : List LineSpec) : List Box := ls.flatMap lineSpecBoxes

/-- The line list the word parser emits for a whole document. -/
def goodLines (ls : List LineSpec) : List LineBox :=
  ls.map (fun l => ⟨lineSpecBoxes l, l.pos⟩)

/-- All word specs of a document. -/
def allWords (ls : List LineSpec) : List WordSpec := ls.flatMap LineSpec.words

/-- A title is bad when the word-tag parse attempt (confidence, then position)
raises. -/
def isBadTitle (t : String) : Bool :=
  match wordTagAttempt t with
  | .error _ => true
  | .ok _ => false

/-- Well-formedness of a word spec: a `bad` word's title must really fail to
parse (a `good` word is well formed by construction). -/
def WordSpec.wf : WordSpec → Bool
  | .good _ _ _ => true
  | .bad t _ => isBadTitle t


lemma intXor_cancel (x y : Int) : Int.xor (Int.xor x y) y = x := by
  cases x <;> cases y <;> simp [Int.xor, Nat.xor_cancel_right]

lemma cmpPairs_four_eq_zero (a1 b1 a2 b2 a3 b3 a4 b4 : Int) :
    cmpPairs [(a1, b1), (a2, b2), (a3, b3), (a4, b4)] = 0 ↔
      (a1 = b1 ∧ a2 = b2 ∧ a3 = b3 ∧ a4 = b4) := by
  simp only [cmpPairs]
  split_ifs <;> (try simp) <;> omega

lemma cmpPairs_four_neg (a1 b1 a2 b2 a3 b3 a4 b4 : Int) :
    cmpPairs [(a1, b1), (a2, b2), (a3, b3), (a4, b4)] < 0 ↔
      (a1 < b1 ∨ (a1 = b1 ∧ (a2 < b2 ∨ (a2 = b2 ∧
        (a3 < b3 ∨ (a3 = b3 ∧ a4 < b4)))))) := by
  simp only [cmpPairs]
  split_ifs <;> (try simp) <;> omega

/-- Claim C1, counterexample: two boxes with the same position but different
content strings are `==` in the code, so equality is not "content and
position equal". -/
theorem claim_C1_cex :
    pyBoxEq ⟨"a", ((0, 0), (1, 1)), 0⟩ ⟨"b", ((0, 0), (1, 1)), 0⟩ = true ∧
      ("a" : String) ≠ "b" := by
  decide

/-- Claim C1, amended: `Box.__eq__` holds exactly when the position tuples are
equal (content is ignored), and `Box.__hash__` is a stable function of the
position alone (the content hash is xor-ed in twice and cancels), hence
consistent with that equality. -/
theorem claim_C1_amended :
    (∀ a b : Box, pyBoxEq a b = true ↔ a.position = b.position) ∧
    (∀ hashStr : String → Int, ∀ b : Box,
      boxHash hashStr b = positionHash b.position) ∧
    (∀ hashStr : String → Int, ∀ a b : Box,
      pyBoxEq a b = true → boxHash hashStr a = boxHash hashStr b) := by
  have heq : ∀ a b : Box, pyBoxEq a b = true ↔ a.position = b.position := by
    intro a b
    obtain ⟨ca, ⟨⟨ax0, ay0⟩, ax1, ay1⟩, fa⟩ := a
    obtain ⟨cb, ⟨⟨bx0, by0⟩, bx1, by1⟩, fb⟩ := b
    simp only [pyBoxEq, boxCmp, decide_eq_true_eq, cmpPairs_four_eq_zero,
      Prod.mk.injEq]
    tauto
  have hhash : ∀ hashStr : String → Int, ∀ b : Box,
      boxHash hashStr b = positionHash b.position := by
    intro hashStr b
    exact intXor_cancel _ _
  refine ⟨heq, hhash, ?_⟩
  intro hashStr a b hab
  rw [hhash, hhash, (heq a b).mp hab]

/-- Claim C1, witness: the amended hash-consistency at a concrete hash
function and a concrete equal pair. -/
theorem claim_C1_witness :
    boxHash (fun _ => 7) ⟨"a", ((0, 0), (1, 1)), 0⟩ =
      boxHash (fun _ => 7) ⟨"b", ((0, 0), (1, 1)), 0⟩ :=
  claim_C1_amended.2.2 (fun _ => 7) _ _ (by decide)

/-- Claim C5: the geometric comparison of `Box.__box_cmp` is a strict total
order consistent with `Box.__eq__`: `<` is transitive, and `A == B` holds
exactly when neither `A < B` nor `B < A`. -/
theorem claim_C5 :
    (∀ a b c : Box, pyLt a b = true → pyLt b c = true → pyLt a c = true) ∧
    (∀ a b : Box, pyBoxEq a b = true ↔ (pyLt a b = false ∧ pyLt b a = false)) := by
  constructor
  · intro a b c h1 h2
    obtain ⟨ca, ⟨⟨ax0, ay0⟩, ax1, ay1⟩, fa⟩ := a
    obtain ⟨cb, ⟨⟨bx0, by0⟩, bx1, by1⟩, fb⟩ := b
    obtain ⟨cc, ⟨⟨cx0, cy0⟩, cx1, cy1⟩, fc⟩ := c
    simp only [pyLt, boxCmp, decide_eq_true_eq, cmpPairs_four_neg] at h1 h2 ⊢
    omega
  · intro a b
    obtain ⟨ca, ⟨⟨ax0, ay0⟩, ax1, ay1⟩, fa⟩ := a
    obtain ⟨cb, ⟨⟨bx0, by0⟩, bx1, by1⟩, fb⟩ := b
    simp only [pyLt, pyBoxEq, boxCmp, decide_eq_true_eq, decide_eq_false_iff_not,
      cmpPairs_four_eq_zero, cmpPairs_four_neg]
    omega

/-- Claim C5, witness: transitivity at three concrete boxes in ascending
geometric order. -/
theorem claim_C5_witness :
    pyLt ⟨"a", ((0, 0), (1, 1)), 0⟩ ⟨"c", ((0, 4), (1, 5)), 0⟩ = true :=
  claim_C5.1 ⟨"a", ((0, 0), (1, 1)), 0⟩ ⟨"b", ((0, 2), (1, 3)), 0⟩
    ⟨"c", ((0, 4), (1, 5)), 0⟩ (by decide) (by decide)

lemma word_boxes_ne_nil_of_content_ne (lb : LineBox) (h : lb.content ≠ "") :
    lb.word_boxes ≠ [] := by
  intro hw
  apply h
  obtain ⟨ws, p⟩ := lb
  simp only at hw
  subst hw
  rfl

lemma lbStartLine_none (lines : List LineBox) (p : Pos)
    (h : lines.getLast? = none) : lbStartLine lines p = lines ++ [⟨[], p⟩] := by
  unfold lbStartLine
  rw [h]

lemma lbStartLine_some (lines : List LineBox) (p : Pos) (lb : LineBox)
    (h : lines.getLast? = some lb) :
    lbStartLine lines p = if lb.content = "" then lines else lines ++ [⟨[], p⟩] := by
  unfold lbStartLine
  rw [h]

lemma lbStartLine_inv (lines : List LineBox) (p : Pos)
    (h : ∀ lb ∈ lines.dropLast, lb.content ≠ "") :
    ∀ lb ∈ (lbStartLine lines p).dropLast, lb.content ≠ "" := by
  cases hlast : lines.getLast? with
  | none =>
    rw [List.getLast?_eq_none_iff] at hlast
    subst hlast
    rw [lbStartLine_none [] p rfl]
    intro lb hm
    simp at hm
  | some last =>
    rw [lbStartLine_some lines p last hlast]
    obtain ⟨ys, hys⟩ := List.getLast?_eq_some_iff.mp hlast
    by_cases hc : last.content = ""
    · simpa [hc] using h
    · intro lb hm
      rw [if_neg hc, List.dropLast_concat, hys] at hm
      rcases List.mem_append.mp hm with hm | hm
      · apply h
        rw [hys, List.dropLast_concat]
        exact hm
      · simp at hm
        subst hm
        exact hc

lemma lbAddWord_inv (lines lines' : List LineBox) (w : String) (p : Pos) (c : Int)
    (h : ∀ lb ∈ lines.dropLast, lb.content ≠ "")
    (hrun : lbAddWord lines w p c = .ok lines') :
    ∀ lb ∈ lines'.dropLast, lb.content ≠ "" := by
  unfold lbAddWord at hrun
  cases hlast : lines.getLast? with
  | none => rw [hlast] at hrun; cases hrun
  | some last =>
    rw [hlast] at hrun
    obtain ⟨ys, hys⟩ := List.getLast?_eq_some_iff.mp hlast
    cases hrun
    intro lb hm
    rw [List.dropLast_concat] at hm
    apply h
    exact hm

lemma lbRunAux_inv (ops : List BOp) :
    ∀ lines lines', (∀ lb ∈ lines.dropLast, lb.content ≠ "") →
      ops.foldlM lbStep lines = .ok lines' →
      ∀ lb ∈ lines'.dropLast, lb.content ≠ "" := by
  induction ops with
  | nil =>
    intro lines lines' h hrun
    simp only [List.foldlM_nil] at hrun
    cases hrun
    exact h
  | cons op rest ih =>
    intro lines lines' h hrun
    rw [List.foldlM_cons] at hrun
    cases hop : lbStep lines op with
    | error e => rw [hop] at hrun; cases hrun
    | ok mid =>
      rw [hop] at hrun
      refine ih mid lines' ?_ hrun
      cases op with
      | startLine b =>
        simp only [lbStep] at hop
        cases hop
        exact lbStartLine_inv lines b h
      | addWord w b c =>
        exact lbAddWord_inv lines mid w b c h hop
      | endLine =>
        simp only [lbStep] at hop
        cases hop
        exact h

/-- Claim C3, counterexample: `start_line` followed immediately by
`get_output` returns a list containing a `LineBox` with zero word boxes. -/
theorem claim_C3_cex :
    lbRun [.startLine ((0, 0), (1, 1))] = .ok [⟨[], ((0, 0), (1, 1))⟩] ∧
      (⟨[], ((0, 0), (1, 1))⟩ : LineBox).word_boxes = [] := by
  decide

/-- Claim C3, amended: in any `get_output` result of a `LineBoxBuilder` every
`LineBox` except possibly the last (a just-started, still-open line) has at
least one word box; `start_line` while the last line has no words is a no-op;
`TextBuilder.start_line` unconditionally appends a new empty line. -/
theorem claim_C3_amended :
    (∀ ops lines, lbRun ops = .ok lines →
      ∀ lb ∈ lines.dropLast, lb.word_boxes ≠ []) ∧
    (∀ (lines : List LineBox) (p : Pos) (lb : LineBox),
      lines.getLast? = some lb → lb.word_boxes = [] → lbStartLine lines p = lines) ∧
    (∀ bt : List String, tbStartLine bt = bt ++ [""]) := by
  refine ⟨?_, ?_, fun bt => rfl⟩
  · intro ops lines hrun lb hm
    exact word_boxes_ne_nil_of_content_ne lb
      (lbRunAux_inv ops [] lines (by simp) hrun lb hm)
  · intro lines p lb hlast hw
    rw [lbStartLine_some lines p lb hlast]
    obtain ⟨ws, q⟩ := lb
    simp only at hw
    subst hw
    exact if_pos rfl

/-- Claim C3, witness: the amended invariant applied to a concrete call
sequence whose first (non-last) line holds one word. -/
theorem claim_C3_witness :
    (⟨[⟨"hi", ((0, 0), (1, 1)), 0⟩], ((0, 0), (1, 1))⟩ : LineBox).word_boxes ≠ [] :=
  claim_C3_amended.1
    [.startLine ((0, 0), (1, 1)), .addWord "hi" ((0, 0), (1, 1)) 0,
     .startLine ((0, 2), (1, 3))]
    [⟨[⟨"hi", ((0, 0), (1, 1)), 0⟩], ((0, 0), (1, 1))⟩, ⟨[], ((0, 2), (1, 3))⟩]
    (by decide) _ (by decide)

/-- Claim C10: a span start tag without a class or a title attribute leaves the
parser state (in particular the open-tag-category stack) unchanged, yet a span
end tag pops the stack unconditionally, so the document `<span></span>` makes
the Tesseract-dialect parser raise an uncaught `IndexError`. -/
theorem claim_C10 :
    (∀ (st : WState) (tag : String) (attrs : List (String × String)),
      lastAttr "title" attrs = none ∨ lastAttr "class" attrs = none →
      wHandleStart st tag attrs = .ok st) ∧
    wFeed [.startTag "span" [], .endTag "span"] initWState = .error .indexError := by
  constructor
  · intro st tag attrs h
    unfold wHandleStart
    by_cases htag : tag = "span"
    · rw [if_neg (by simp [htag])]
      rcases h with h | h
      · rw [h]
      · cases ht : lastAttr "title" attrs with
        | none => rfl
        | some t => rw [h]
    · rw [if_pos htag]
  · decide

/-- Claim C10, witness: the no-push half at a concrete class-less span tag. -/
theorem claim_C10_witness :
    wHandleStart initWState "span" [("id", "z")] = .ok initWState :=
  claim_C10.1 initWState "span" [("id", "z")] (by decide)

lemma except_bind_ok {e a b : Type} (x : a) (f : a → Except e b) :
    (Except.ok x >>= f) = f x := rfl

lemma except_bind_error {e a b : Type} (err : e) (f : a → Except e b) :
    ((Except.error err : Except e a) >>= f) = .error err := rfl

lemma except_pure {e a : Type} (x : a) : (pure x : Except e a) = .ok x := rfl

/-- Claim C8: on the character-position dialect line with text `"12 345"` and
stripped coordinate sequence `[0,0,5,5, 6,0,11,5, 12,0,17,5, 18,0,23,5,
24,0,29,5]`, the parser emits exactly the two word boxes `"12"` at
`((0,0),(11,5))` and `"345"` at `((12,0),(29,5))`, each with confidence 0. -/
theorem claim_C8 :
    (lFeed [.startTag "span" [("class", "ocr_line")],
            .dataTxt "12 345",
            .startTag "span" [("class", "ocr_cinfo"),
              ("title", "x_bboxes 0 0 5 5 6 0 11 5 -1 -1 -1 -1 12 0 17 5 18 0 23 5 24 0 29 5")],
            .endTag "span",
            .endTag "span"] initLState).map LState.boxes =
      .ok [⟨"12", ((0, 0), (11, 5)), 0⟩, ⟨"345", ((12, 0), (29, 5)), 0⟩] := by
  decide

/-- Claim C6: the fallback policy of the batch read paths.  When the
Tesseract-dialect parser succeeds with zero boxes, `read_file` returns exactly
what it computes from the character-position parser on the same document
(its boxes, resp. their singleton-line wrapping, after trailing-empty-box
normalization); when it yields at least one box, that result is returned and
the final answer does not depend on the fallback parser. -/
theorem claim_C6 :
    (∀ (doc : List MEvent) (st1 : WState),
      wFeed doc initWState = .ok st1 → st1.boxes = [] →
      wordBoxBuilderRead doc =
        (lFeed doc initLState).map (fun st2 => popTrailingEmpty st2.boxes)) ∧
    (∀ (doc : List MEvent) (st1 : WState),
      wFeed doc initWState = .ok st1 → st1.boxes ≠ [] →
      wordBoxBuilderRead doc = .ok (popTrailingEmpty st1.boxes)) ∧
    (∀ (doc : List MEvent) (st1 : WState),
      wFeed doc initWState = .ok st1 → st1.boxes = [] →
      lineBoxBuilderRead doc =
        (lFeed doc initLState).map (fun st2 =>
          (popTrailingEmpty st2.boxes).map (fun b => LineBox.mk [b] b.position))) ∧
    (∀ (doc : List MEvent) (st1 : WState),
      wFeed doc initWState = .ok st1 → st1.boxes ≠ [] →
      lineBoxBuilderRead doc = .ok st1.lines) := by
  refine ⟨?_, ?_, ?_, ?_⟩ <;> intro doc st1 h1 hb
  · unfold wordBoxBuilderRead
    rw [h1, except_bind_ok]
    simp only [hb, ne_eq, not_true_eq_false, if_false]
    cases h2 : lFeed doc initLState with
    | error e => rfl
    | ok st2 =>
      rw [except_bind_ok]
      by_cases h3 : st2.boxes = []
      · simp [h3, popTrailingEmpty, Except.map, except_pure]
      · simp [h3, Except.map, except_pure]
  · unfold wordBoxBuilderRead
    rw [h1, except_bind_ok]
    simp [hb, except_pure]
  · unfold lineBoxBuilderRead
    rw [h1, except_bind_ok]
    simp only [hb, ne_eq, not_true_eq_false, if_false]
    cases h2 : lFeed doc initLState with
    | error e => rfl
    | ok st2 =>
      rw [except_bind_ok]
      by_cases h3 : st2.boxes = []
      · simp [h3, popTrailingEmpty, Except.map, except_pure]
      · simp [h3, Except.map, except_pure]
  · unfold lineBoxBuilderRead
    rw [h1, except_bind_ok]
    simp [hb, except_pure]

/-- Claim C6, witness: on the empty document the Tesseract-dialect parser
yields zero boxes and `read_file` equals the fallback computation. -/
theorem claim_C6_witness :
    wordBoxBuilderRead [] =
      (lFeed [] initLState).map (fun st2 => popTrailingEmpty st2.boxes) :=
  claim_C6.1 [] initWState rfl rfl

/-- Claim C4, counterexample: a document whose line tag has an unparseable
bbox makes `read_file` itself raise; the fallback character-position parser is
never consulted, although on this same document it would succeed with a box. -/
theorem claim_C4_cex :
    wordBoxBuilderRead
        [.startTag "span" [("class", "ocr_line"), ("title", "x")],
         .dataTxt "ab",
         .startTag "span" [("class", "ocr_cinfo"), ("title", "x_bboxes 0 0 5 5 6 0 11 5")],
         .endTag "span",
         .endTag "span"] = .error (.invalidPosition "x") ∧
    (lFeed [.startTag "span" [("class", "ocr_line"), ("title", "x")],
            .dataTxt "ab",
            .startTag "span" [("class", "ocr_cinfo"), ("title", "x_bboxes 0 0 5 5 6 0 11 5")],
            .endTag "span",
            .endTag "span"] initLState).map LState.boxes =
      .ok [⟨"ab", ((0, 0), (11, 5)), 0⟩] := by
  decide

/-- Claim C4, amended: a missing or malformed line-level bbox in the Tesseract
dialect raises out of the start-tag handler, and any exception of the
Tesseract-dialect parser propagates out of the builder's `read_file`
unchanged — the read path does not retry with the fallback dialect parser. -/
theorem claim_C4_amended :
    (∀ (st : WState) (cls title : String) (e : PErr),
      cls ∈ lineTagTypes → cls ∉ wordTagTypes → parsePosition title = .error e →
      wHandleStart st "span" [("class", cls), ("title", title)] = .error e) ∧
    (∀ (doc : List MEvent) (e : PErr), wFeed doc initWState = .error e →
      wordBoxBuilderRead doc = .error e) := by
  constructor
  · intro st cls title e hline hword hpos
    unfold wHandleStart
    rw [if_neg (by simp)]
    have ht : lastAttr "title" [("class", cls), ("title", title)] = some title := rfl
    have hc : lastAttr "class" [("class", cls), ("title", title)] = some cls := by
      simp [lastAttr]
    rw [ht, hc]
    simp only [if_neg hword, if_pos hline, hpos]
  · intro doc e h
    unfold wordBoxBuilderRead
    rw [h, except_bind_error]

/-- Claim C4, witness: the propagation half at a concrete document with a
malformed line bbox. -/
theorem claim_C4_witness :
    wordBoxBuilderRead [.startTag "span" [("class", "ocr_line"), ("title", "nope")]] =
      .error (.invalidPosition "nope") :=
  claim_C4_amended.2 [.startTag "span" [("class", "ocr_line"), ("title", "nope")]]
    (.invalidPosition "nope") (by decide)
lemma isPrefixOf_append_self (st b : List Char) : st.isPrefixOf (st ++ b) = true := by
  induction st with
  | nil => simp [List.isPrefixOf]
  | cons c cs ih => simp [List.isPrefixOf, ih]

lemma mem_of_head? {a : Type} {l : List a} {x : a} (h : l.head? = some x) : x ∈ l := by
  cases l with
  | nil => cases h
  | cons c t =>
    simp only [List.head?] at h
    cases h
    exact List.mem_cons_self _ _

lemma mem_of_getLast? {a : Type} {l : List a} {x : a} (h : l.getLast? = some x) : x ∈ l := by
  obtain ⟨ys, rfl⟩ := List.getLast?_eq_some_iff.mp h
  simp

lemma pySplitFuel_irrel (s0 : Char) (st : List Char) :
    ∀ (f1 : Nat) (l : List Char) (f2 : Nat), l.length ≤ f1 → l.length ≤ f2 →
      pySplitFuel s0 st f1 l = pySplitFuel s0 st f2 l := by
  intro f1
  induction f1 with
  | zero =>
    intro l f2 h1 _
    have hl : l = [] := List.length_eq_zero.mp (Nat.le_zero.mp h1)
    subst hl
    cases f2 <;> rfl
  | succ f ih =>
    intro l f2 h1 h2
    cases l with
    | nil => cases f2 <;> rfl
    | cons c rest =>
      cases f2 with
      | zero => simp at h2
      | succ g =>
        simp only [pySplitFuel]
        by_cases hc : c = s0 ∧ st.isPrefixOf rest
        · rw [if_pos hc, if_pos hc]
          have hd := List.length_drop st.length rest
          simp only [List.length_cons] at h1 h2
          rw [ih (rest.drop st.length) g (by omega) (by omega)]
        · rw [if_neg hc, if_neg hc]
          simp only [List.length_cons] at h1 h2
          rw [ih rest g (by omega) (by omega)]

lemma pySplitFuel_not_mem (s0 : Char) (st : List Char) :
    ∀ (l : List Char) (fuel : Nat), l.length ≤ fuel → s0 ∉ l →
      pySplitFuel s0 st fuel l = [l] := by
  intro l
  induction l with
  | nil => intro fuel _ _; cases fuel <;> rfl
  | cons c rest ih =>
    intro fuel hf hmem
    cases fuel with
    | zero => simp at hf
    | succ f =>
      simp only [pySplitFuel]
      rw [if_neg ?_, ih f (by simp only [List.length_cons] at hf; omega)
        (fun hx => hmem (List.mem_cons_of_mem c hx))]
      rintro ⟨rfl, -⟩
      exact hmem (List.mem_cons_self _ _)

lemma pySplitFuel_append (s0 : Char) (st : List Char) :
    ∀ (a b : List Char) (fuel : Nat),
      (a ++ s0 :: (st ++ b)).length ≤ fuel → s0 ∉ a →
      pySplitFuel s0 st fuel (a ++ s0 :: (st ++ b)) =
        a :: pySplitFuel s0 st b.length b := by
  intro a
  induction a with
  | nil =>
    intro b fuel hf hmem
    cases fuel with
    | zero => simp at hf
    | succ f =>
      simp only [List.nil_append, pySplitFuel, List.append_eq]
      rw [if_pos ?_, List.drop_left]
      · congr 1
        apply pySplitFuel_irrel
        · simp only [List.length_cons, List.length_append] at hf
          omega
        · exact le_refl _
      · exact ⟨trivial, isPrefixOf_append_self st b⟩
  | cons c a' ih =>
    intro b fuel hf hmem
    cases fuel with
    | zero => simp at hf
    | succ f =>
      simp only [List.cons_append, pySplitFuel, List.append_eq]
      rw [if_neg ?_, ih b f (by simp only [List.length_cons, List.length_append] at hf ⊢; omega)
        (fun hx => hmem (List.mem_cons_of_mem c hx))]
      rintro ⟨rfl, -⟩
      exact hmem (List.mem_cons_self _ _)
lemma digitChar10_mem (d : Nat) :
    digitChar10 d ∈ ['0', '1', '2', '3', '4', '5', '6', '7', '8', '9'] := by
  unfold digitChar10
  split <;> decide

lemma natChars_subset (n : Nat) :
    ∀ c ∈ natChars n, c ∈ ['0', '1', '2', '3', '4', '5', '6', '7', '8', '9'] := by
  intro c hc
  unfold natChars at hc
  obtain ⟨d, _, rfl⟩ := List.mem_map.mp hc
  exact digitChar10_mem d

lemma intChars_subset (i : Int) :
    ∀ c ∈ intChars i, c ∈ ['-', '0', '1', '2', '3', '4', '5', '6', '7', '8', '9'] := by
  intro c hc
  unfold intChars at hc
  split at hc
  · rcases List.mem_cons.mp hc with rfl | hc
    · exact List.mem_cons_self _ _
    · exact List.mem_cons_of_mem _ (natChars_subset _ c hc)
  · exact List.mem_cons_of_mem _ (natChars_subset _ c hc)

lemma allowed_not_ws (c : Char)
    (h : c ∈ ['-', '0', '1', '2', '3', '4', '5', '6', '7', '8', '9']) :
    c.isWhitespace = false := by
  fin_cases h <;> decide

lemma allowed_ne_semi (c : Char)
    (h : c ∈ ['-', '0', '1', '2', '3', '4', '5', '6', '7', '8', '9']) : c ≠ ';' := by
  fin_cases h <;> decide

lemma allowed_ne_space (c : Char)
    (h : c ∈ ['-', '0', '1', '2', '3', '4', '5', '6', '7', '8', '9']) : c ≠ ' ' := by
  fin_cases h <;> decide

lemma semi_not_mem_intChars (i : Int) : ';' ∉ intChars i :=
  fun h => allowed_ne_semi ';' (intChars_subset i ';' h) rfl

lemma space_not_mem_intChars (i : Int) : ' ' ∉ intChars i :=
  fun h => allowed_ne_space ' ' (intChars_subset i ' ' h) rfl

lemma digitsOf_ne_nil (n : Nat) : digitsOf n ≠ [] := by
  unfold digitsOf
  split <;> simp

lemma natChars_ne_nil (n : Nat) : natChars n ≠ [] := by
  unfold natChars
  simp [digitsOf_ne_nil]

lemma intChars_ne_nil (i : Int) : intChars i ≠ [] := by
  unfold intChars
  split
  · simp
  · exact natChars_ne_nil _

lemma digitsOf_lt (n : Nat) : ∀ d ∈ digitsOf n, d < 10 := by
  induction n using Nat.strong_induction_on with
  | _ n ih =>
    intro d hd
    unfold digitsOf at hd
    split at hd
    · next h => simp at hd; omega
    · next h =>
      rcases List.mem_append.mp hd with hd | hd
      · exact ih (n / 10) (Nat.div_lt_self (by omega) (by omega)) d hd
      · simp at hd; omega

lemma valFrom_digitsOf (n : Nat) :
    ∀ a, valFrom a (digitsOf n) = a * 10 ^ (digitsOf n).length + n := by
  induction n using Nat.strong_induction_on with
  | _ n ih =>
    intro a
    unfold digitsOf
    split
    · next h =>
        simp only [valFrom, List.foldl_cons, List.foldl_nil, List.length_cons,
          List.length_nil, pow_one, zero_add]
        omega
    · next h =>
      have hd := ih (n / 10) (Nat.div_lt_self (by omega) (by omega)) a
      simp only [valFrom, List.foldl_append, List.foldl_cons, List.foldl_nil] at hd ⊢
      rw [hd, List.length_append, List.length_cons, List.length_nil, pow_succ, ← mul_assoc]
      generalize a * 10 ^ (digitsOf (n / 10)).length = m
      omega

lemma digitChar10_isDigit (d : Nat) : (digitChar10 d).isDigit = true := by
  unfold digitChar10
  split <;> decide

lemma digitChar10_ne_dash (d : Nat) : digitChar10 d ≠ '-' := by
  unfold digitChar10
  split <;> decide

lemma digitChar10_ne_plus (d : Nat) : digitChar10 d ≠ '+' := by
  unfold digitChar10
  split <;> decide

lemma digitVal_digitChar10 (d : Nat) (h : d < 10) : digitVal (digitChar10 d) = d := by
  interval_cases d <;> decide

lemma map_digitVal_natChars (n : Nat) : (natChars n).map digitVal = digitsOf n := by
  unfold natChars
  rw [List.map_map]
  have : ∀ l : List Nat, (∀ d ∈ l, d < 10) → l.map (digitVal ∘ digitChar10) = l := by
    intro l
    induction l with
    | nil => intro _; rfl
    | cons d rest ih =>
      intro h
      simp only [List.map_cons, Function.comp_apply,
        digitVal_digitChar10 d (h d (List.mem_cons_self _ _)), List.cons.injEq, true_and]
      exact ih (fun x hx => h x (List.mem_cons_of_mem d hx))
  exact this _ (digitsOf_lt n)

lemma pyNatChars_natChars (n : Nat) : pyNatChars (natChars n) = .ok n := by
  unfold pyNatChars
  rw [if_neg (natChars_ne_nil n), if_pos]
  · rw [map_digitVal_natChars, valFrom_digitsOf n 0]
    simp
  · rw [List.all_eq_true]
    intro c hc
    unfold natChars at hc
    obtain ⟨d, _, rfl⟩ := List.mem_map.mp hc
    exact digitChar10_isDigit d

lemma pyStripChars_id (l : List Char)
    (h1 : ∀ c, l.head? = some c → c.isWhitespace = false)
    (h2 : ∀ c, l.getLast? = some c → c.isWhitespace = false) :
    pyStripChars l = l := by
  cases hl : l with
  | nil => rfl
  | cons c rest =>
    unfold pyStripChars
    rw [List.dropWhile_cons, if_neg (by rw [h1 c (by rw [hl]; rfl)]; simp)]
    have hne : c :: rest ≠ ([] : List Char) := by simp
    have hsp : c :: rest = (c :: rest).dropLast ++ [(c :: rest).getLast hne] :=
      (List.dropLast_append_getLast hne).symm
    rw [hsp, List.reverse_append, List.reverse_cons, List.reverse_nil, List.nil_append,
      List.singleton_append, List.dropWhile_cons]
    rw [if_neg]
    · rw [List.reverse_cons, List.reverse_reverse]
    · rw [h2 ((c :: rest).getLast hne)
        (by rw [hl, List.getLast?_eq_getLast _ hne])]
      simp

lemma pyStripChars_intChars (i : Int) : pyStripChars (intChars i) = intChars i := by
  apply pyStripChars_id
  · intro c hc
    exact allowed_not_ws c (intChars_subset i c (mem_of_head? hc))
  · intro c hc
    exact allowed_not_ws c (intChars_subset i c (mem_of_getLast? hc))

lemma pyInt_intChars (i : Int) : pyInt ⟨intChars i⟩ = .ok i := by
  unfold pyInt
  rw [show (⟨intChars i⟩ : String).data = intChars i from rfl, pyStripChars_intChars]
  by_cases hi : i < 0
  · rw [show intChars i = '-' :: natChars (-i).toNat from by unfold intChars; rw [if_pos hi]]
    split
    · next heq => cases heq
    · next c rest heq =>
      obtain ⟨h1, h2⟩ : '-' = c ∧ natChars (-i).toNat = rest := by
        injection heq with h1 h2
        exact ⟨h1, h2⟩
      subst h1
      subst h2
      rw [if_pos rfl, pyNatChars_natChars]
      simp only [Except.map]
      congr 1
      rw [Int.toNat_of_nonneg (by omega)]
      omega
  · rw [show intChars i = natChars i.toNat from by unfold intChars; rw [if_neg hi]]
    cases hds : digitsOf i.toNat with
    | nil => exact absurd hds (digitsOf_ne_nil _)
    | cons d ds =>
      have hd : natChars i.toNat = digitChar10 d :: (List.map digitChar10 ds) := by
        unfold natChars
        rw [hds, List.map_cons]
      rw [hd]
      split
      · next heq => cases heq
      · next c rest heq =>
        obtain ⟨h1, h2⟩ : digitChar10 d = c ∧ List.map digitChar10 ds = rest := by
          injection heq with h1 h2
          exact ⟨h1, h2⟩
        subst h1
        subst h2
        rw [if_neg (digitChar10_ne_dash d), if_neg (digitChar10_ne_plus d),
          ← hd, pyNatChars_natChars]
        simp only [Except.map]
        congr 1
        exact Int.toNat_of_nonneg (by omega)
lemma getLast?_append_right {l1 l2 : List Char} (h : l2 ≠ []) :
    (l1 ++ l2).getLast? = l2.getLast? := by
  rw [List.getLast?_append]
  cases hl : l2.getLast? with
  | none => exact absurd (List.getLast?_eq_none_iff.mp hl) h
  | some x => rfl

lemma semi_not_mem_bboxChars (p : Pos) : ';' ∉ bboxChars p := by
  unfold bboxChars
  intro h
  simp only [List.mem_append] at h
  rcases h with (((((((h | h) | h) | h) | h) | h) | h) | h)
  · exact absurd h (by decide)
  · exact semi_not_mem_intChars p.1.1 h
  · exact absurd h (by decide)
  · exact semi_not_mem_intChars p.1.2 h
  · exact absurd h (by decide)
  · exact semi_not_mem_intChars p.2.1 h
  · exact absurd h (by decide)
  · exact semi_not_mem_intChars p.2.2 h

lemma semi_not_mem_wconfTail (conf : Int) : ';' ∉ "x_wconf ".data ++ intChars conf := by
  intro h
  rcases List.mem_append.mp h with h | h
  · exact absurd h (by decide)
  · exact semi_not_mem_intChars conf h

lemma wordTitle_data (p : Pos) (conf : Int) :
    (wordTitle p conf).data =
      bboxChars p ++ ';' :: ([' '] ++ ("x_wconf ".data ++ intChars conf)) := by
  unfold wordTitle
  simp only [List.append_assoc]
  rfl

lemma pySplit_eq (c : Char) (cs : List Char) (sep s : String) (h : sep.data = c :: cs) :
    pySplit sep s = (pySplitAux c cs s.data).map (fun l => (⟨l⟩ : String)) := by
  unfold pySplit
  rw [h]

lemma pySplit_semi_wordTitle (p : Pos) (conf : Int) :
    pySplit "; " (wordTitle p conf) =
      [⟨bboxChars p⟩, ⟨"x_wconf ".data ++ intChars conf⟩] := by
  rw [pySplit_eq ';' [' '] "; " _ rfl, wordTitle_data]
  unfold pySplitAux
  rw [pySplitFuel_append ';' [' '] _ _ _ (le_refl _) (semi_not_mem_bboxChars p),
    pySplitFuel_not_mem ';' [' '] _ _ (le_refl _) (semi_not_mem_wconfTail conf)]
  rfl

lemma pySplit_semi_lineTitle (p : Pos) :
    pySplit "; " (lineTitle p) = [⟨bboxChars p⟩] := by
  rw [pySplit_eq ';' [' '] "; " _ rfl, show (lineTitle p).data = bboxChars p from rfl]
  unfold pySplitAux
  rw [pySplitFuel_not_mem ';' [' '] _ _ (le_refl _) (semi_not_mem_bboxChars p)]
  rfl

lemma pySplitFuel_single_append (s0 : Char) (a b : List Char) (fuel : Nat)
    (hf : (a ++ s0 :: b).length ≤ fuel) (h : s0 ∉ a) :
    pySplitFuel s0 [] fuel (a ++ s0 :: b) = a :: pySplitFuel s0 [] b.length b := by
  have hx := pySplitFuel_append s0 [] a b fuel (by simpa using hf) h
  simpa using hx

lemma bboxChars_assoc (p : Pos) :
    bboxChars p = "bbox".data ++ ' ' :: (intChars p.1.1 ++ ' ' ::
      (intChars p.1.2 ++ ' ' :: (intChars p.2.1 ++ ' ' :: intChars p.2.2))) := by
  unfold bboxChars
  simp only [List.append_assoc]
  rfl

lemma pySplitAux_space_bbox (p : Pos) :
    pySplitAux ' ' [] (bboxChars p) =
      ["bbox".data, intChars p.1.1, intChars p.1.2, intChars p.2.1, intChars p.2.2] := by
  unfold pySplitAux
  rw [bboxChars_assoc,
    pySplitFuel_single_append ' ' _ _ _ (le_refl _) (by decide),
    pySplitFuel_single_append ' ' _ _ _ (le_refl _) (space_not_mem_intChars _),
    pySplitFuel_single_append ' ' _ _ _ (le_refl _) (space_not_mem_intChars _),
    pySplitFuel_single_append ' ' _ _ _ (le_refl _) (space_not_mem_intChars _),
    pySplitFuel_not_mem ' ' [] _ _ (le_refl _) (space_not_mem_intChars _)]

lemma pySplit_space_bbox (p : Pos) :
    pySplit " " ⟨bboxChars p⟩ =
      ["bbox", ⟨intChars p.1.1⟩, ⟨intChars p.1.2⟩, ⟨intChars p.2.1⟩, ⟨intChars p.2.2⟩] := by
  rw [pySplit_eq ' ' [] " " _ rfl, show (⟨bboxChars p⟩ : String).data = bboxChars p from rfl,
    pySplitAux_space_bbox]
  rfl

lemma pySplitAux_space_wconf (conf : Int) :
    pySplitAux ' ' [] ("x_wconf ".data ++ intChars conf) =
      ["x_wconf".data, intChars conf] := by
  unfold pySplitAux
  rw [show "x_wconf ".data ++ intChars conf = "x_wconf".data ++ ' ' :: intChars conf from rfl,
    pySplitFuel_single_append ' ' _ _ _ (le_refl _) (by decide),
    pySplitFuel_not_mem ' ' [] _ _ (le_refl _) (space_not_mem_intChars _)]

lemma pySplit_space_wconf (conf : Int) :
    pySplit " " ⟨"x_wconf ".data ++ intChars conf⟩ = ["x_wconf", ⟨intChars conf⟩] := by
  rw [pySplit_eq ' ' [] " " _ rfl,
    show (⟨"x_wconf ".data ++ intChars conf⟩ : String).data =
      "x_wconf ".data ++ intChars conf from rfl,
    pySplitAux_space_wconf]
  rfl

lemma pyStrip_bboxPiece (p : Pos) : pyStrip ⟨bboxChars p⟩ = ⟨bboxChars p⟩ := by
  unfold pyStrip
  rw [show (⟨bboxChars p⟩ : String).data = bboxChars p from rfl, pyStripChars_id]
  · intro c hc
    rw [show (bboxChars p).head? = some 'b' from by rw [bboxChars_assoc]; rfl] at hc
    cases hc
    decide
  · intro c hc
    rw [show bboxChars p = ("bbox ".data ++ intChars p.1.1 ++ [' '] ++ intChars p.1.2 ++
        [' '] ++ intChars p.2.1 ++ [' ']) ++ intChars p.2.2 from by
          unfold bboxChars; simp only [List.append_assoc],
      getLast?_append_right (intChars_ne_nil p.2.2)] at hc
    exact allowed_not_ws c (intChars_subset _ c (mem_of_getLast? hc))

lemma pyStrip_wconfPiece (conf : Int) :
    pyStrip ⟨"x_wconf ".data ++ intChars conf⟩ = ⟨"x_wconf ".data ++ intChars conf⟩ := by
  unfold pyStrip
  rw [show (⟨"x_wconf ".data ++ intChars conf⟩ : String).data =
      "x_wconf ".data ++ intChars conf from rfl, pyStripChars_id]
  · intro c hc
    rw [show ("x_wconf ".data ++ intChars conf).head? = some 'x' from rfl] at hc
    cases hc
    decide
  · intro c hc
    rw [getLast?_append_right (intChars_ne_nil conf)] at hc
    exact allowed_not_ws c (intChars_subset _ c (mem_of_getLast? hc))

lemma pyStartswith_bbox (p : Pos) : pyStartswith "bbox" ⟨bboxChars p⟩ = true := by
  rw [show pyStartswith "bbox" ⟨bboxChars p⟩ =
      "bbox".data.isPrefixOf (bboxChars p) from rfl, bboxChars_assoc]
  rfl

lemma not_pyStartswith_wconf_bbox (p : Pos) :
    pyStartswith "x_wconf" ⟨bboxChars p⟩ = false := by
  rw [show pyStartswith "x_wconf" ⟨bboxChars p⟩ =
      "x_wconf".data.isPrefixOf (bboxChars p) from rfl, bboxChars_assoc]
  rfl

lemma pyStartswith_wconf (conf : Int) :
    pyStartswith "x_wconf" ⟨"x_wconf ".data ++ intChars conf⟩ = true := rfl

lemma parsePositionGo_bbox (t : String) (p : Pos) (rest : List String) :
    parsePositionGo t (⟨bboxChars p⟩ :: rest) = .ok p := by
  unfold parsePositionGo
  rw [pyStrip_bboxPiece, if_pos (pyStartswith_bbox p), pySplit_space_bbox]
  rw [show pyIntAt ["bbox", ⟨intChars p.1.1⟩, ⟨intChars p.1.2⟩, ⟨intChars p.2.1⟩,
        ⟨intChars p.2.2⟩] 1 = pyInt ⟨intChars p.1.1⟩ from rfl,
    show pyIntAt ["bbox", ⟨intChars p.1.1⟩, ⟨intChars p.1.2⟩, ⟨intChars p.2.1⟩,
        ⟨intChars p.2.2⟩] 2 = pyInt ⟨intChars p.1.2⟩ from rfl,
    show pyIntAt ["bbox", ⟨intChars p.1.1⟩, ⟨intChars p.1.2⟩, ⟨intChars p.2.1⟩,
        ⟨intChars p.2.2⟩] 3 = pyInt ⟨intChars p.2.1⟩ from rfl,
    show pyIntAt ["bbox", ⟨intChars p.1.1⟩, ⟨intChars p.1.2⟩, ⟨intChars p.2.1⟩,
        ⟨intChars p.2.2⟩] 4 = pyInt ⟨intChars p.2.2⟩ from rfl]
  simp only [pyInt_intChars, except_bind_ok]
  rfl

lemma parsePosition_wordTitle (p : Pos) (conf : Int) :
    parsePosition (wordTitle p conf) = .ok p := by
  unfold parsePosition
  rw [pySplit_semi_wordTitle, parsePositionGo_bbox]

lemma parsePosition_lineTitle (p : Pos) : parsePosition (lineTitle p) = .ok p := by
  unfold parsePosition
  rw [pySplit_semi_lineTitle, parsePositionGo_bbox]

lemma parseConfidenceGo_skip_bbox (p : Pos) (rest : List String) :
    parseConfidenceGo (⟨bboxChars p⟩ :: rest) = parseConfidenceGo rest := by
  unfold parseConfidenceGo
  rw [pyStrip_bboxPiece, if_neg (by rw [not_pyStartswith_wconf_bbox p]; simp)]
  exact parseConfidenceGo.eq_def rest

lemma parseConfidenceGo_wconf (conf : Int) (rest : List String) :
    parseConfidenceGo (⟨"x_wconf ".data ++ intChars conf⟩ :: rest) = .ok conf := by
  unfold parseConfidenceGo
  rw [pyStrip_wconfPiece, if_pos (pyStartswith_wconf conf), pySplit_space_wconf]
  exact pyInt_intChars conf

lemma parseConfidence_wordTitle (p : Pos) (conf : Int) :
    parseConfidence (wordTitle p conf) = .ok conf := by
  unfold parseConfidence
  rw [pySplit_semi_wordTitle, parseConfidenceGo_skip_bbox, parseConfidenceGo_wconf]

lemma parseConfidence_lineTitle (p : Pos) : parseConfidence (lineTitle p) = .ok 0 := by
  unfold parseConfidence
  rw [pySplit_semi_lineTitle, parseConfidenceGo_skip_bbox]
  rfl

lemma wordTagAttempt_good (p : Pos) (cf : Option Int) :
    wordTagAttempt (goodWordTitle p cf) = .ok (cf.getD 0, p) := by
  cases cf with
  | none =>
    unfold wordTagAttempt goodWordTitle
    rw [parseConfidence_lineTitle, except_bind_ok, parsePosition_lineTitle, except_bind_ok]
    rfl
  | some c =>
    unfold wordTagAttempt goodWordTitle
    rw [parseConfidence_wordTitle, except_bind_ok, parsePosition_wordTitle, except_bind_ok]
    rfl
lemma string_nil_append (s : String) : "" ++ s = s := rfl

lemma wordTagAttempt_wordTitle (p : Pos) (c : Int) :
    wordTagAttempt (wordTitle p c) = .ok (c, p) := by
  have h := wordTagAttempt_good p (some c)
  simpa [goodWordTitle] using h

lemma wFeed_append (a b : List MEvent) (st : WState) :
    wFeed (a ++ b) st = wFeed a st >>= fun st2 => wFeed b st2 := by
  unfold wFeed
  rw [List.foldlM_append]

lemma wFeed_boxBlock (b : Box) (st : WState) :
    wFeed ([MEvent.startTag "p" []] ++ spanEvents (boxXmlTag b) ++ [MEvent.endTag "p"]) st =
      .ok { st with cur_box_confidence := b.confidence, cur_box_position := b.position,
                    cur_box_text := none,
                    boxes := st.boxes ++ [b],
                    cur_line_content := st.cur_line_content ++ [b] } := by
  obtain ⟨tt, cbp, cbt, cbc, bxs, clp, clc, lns⟩ := st
  obtain ⟨bc, bp, bconf⟩ := b
  simp only [spanEvents, boxXmlTag, List.cons_append, List.nil_append]
  simp [wFeed, List.foldlM_cons, List.foldlM_nil, wStep, wHandleStart, wHandleData,
    wHandleEnd, lastAttr, wordTagTypes, lineTagTypes, wordTagAttempt_wordTitle,
    except_bind_ok, except_pure, string_nil_append, List.foldl_cons, List.foldl_nil]

lemma wFeed_boxBlocks (bs : List Box) :
    ∀ st : WState, ∃ p' c' t', wFeed (bs.flatMap (fun b => [MEvent.startTag "p" []] ++
        spanEvents (boxXmlTag b) ++ [MEvent.endTag "p"])) st =
      .ok { st with cur_box_position := p', cur_box_confidence := c', cur_box_text := t',
                    boxes := st.boxes ++ bs,
                    cur_line_content := st.cur_line_content ++ bs } := by
  induction bs with
  | nil =>
    intro st
    refine ⟨st.cur_box_position, st.cur_box_confidence, st.cur_box_text, ?_⟩
    obtain ⟨tt, cbp, cbt, cbc, bxs, clp, clc, lns⟩ := st
    simp [wFeed, List.foldlM_nil, except_pure]
  | cons b rest ih =>
    intro st
    rw [List.flatMap_cons, wFeed_append, wFeed_boxBlock, except_bind_ok]
    obtain ⟨p', c', t', hrest⟩ := ih _
    refine ⟨p', c', t', ?_⟩
    rw [hrest]
    obtain ⟨tt, cbp, cbt, cbc, bxs, clp, clc, lns⟩ := st
    simp

/-- Claim C2: serializing any list of boxes with `WordBoxBuilder.write_file`
(`Box.get_xml_tag` spans wrapped in the fixed header/body) and parsing the
resulting document with the Tesseract-dialect parser recovers exactly the
original boxes: identical contents, identical integer positions, identical
confidences. -/
theorem claim_C2 (bs : List Box) :
    (wFeed (writeFileEvents bs) initWState).map WState.boxes = .ok bs := by
  unfold writeFileEvents
  rw [wFeed_append, wFeed_append, wFeed_append,
    show wFeed headerEvents initWState = .ok initWState from rfl, except_bind_ok,
    show wFeed [MEvent.startTag "body" []] initWState = .ok initWState from rfl,
    except_bind_ok]
  obtain ⟨p', c', t', h⟩ := wFeed_boxBlocks bs initWState
  rw [h, except_bind_ok,
    show ∀ st : WState, wFeed [MEvent.endTag "body", MEvent.endTag "html"] st = .ok st from
      fun st => rfl]
  simp [Except.map, initWState]
lemma wFeed_goodWordSpec (c : String) (p : Pos) (cf : Option Int) (st : WState) :
    wFeed (wordSpecEvents (.good c p cf)) st =
      .ok { st with cur_box_confidence := cf.getD 0, cur_box_position := p,
                    cur_box_text := none,
                    boxes := st.boxes ++ [⟨c, p, cf.getD 0⟩],
                    cur_line_content := st.cur_line_content ++ [⟨c, p, cf.getD 0⟩] } := by
  obtain ⟨tt, cbp, cbt, cbc, bxs, clp, clc, lns⟩ := st
  simp [wordSpecEvents, wFeed, List.foldlM_cons, List.foldlM_nil, wStep, wHandleStart,
    wHandleData, wHandleEnd, lastAttr, wordTagTypes, lineTagTypes, wordTagAttempt_good,
    except_bind_ok, except_pure, string_nil_append, List.foldl_cons, List.foldl_nil]

lemma wFeed_badWordSpec (t txt : String) (st : WState) (hb : isBadTitle t = true)
    (hn : st.cur_box_text = none) :
    wFeed (wordSpecEvents (.bad t txt)) st = .ok st := by
  obtain ⟨e, he⟩ : ∃ e, wordTagAttempt t = .error e := by
    unfold isBadTitle at hb
    cases h : wordTagAttempt t with
    | error e => exact ⟨e, rfl⟩
    | ok v => rw [h] at hb; cases hb
  obtain ⟨tt, cbp, cbt, cbc, bxs, clp, clc, lns⟩ := st
  simp only at hn
  subst hn
  simp [wordSpecEvents, wFeed, List.foldlM_cons, List.foldlM_nil, wStep, wHandleStart,
    wHandleData, wHandleEnd, lastAttr, wordTagTypes, lineTagTypes, he,
    except_bind_ok, except_pure, List.foldl_cons, List.foldl_nil]

lemma wFeed_wordList (ws : List WordSpec) :
    ∀ st : WState, (∀ w ∈ ws, w.wf = true) → st.cur_box_text = none →
      ∃ p' c', wFeed (ws.flatMap wordSpecEvents) st =
        .ok { st with cur_box_position := p', cur_box_confidence := c',
                      cur_box_text := none,
                      boxes := st.boxes ++ ws.flatMap wordSpecBoxes,
                      cur_line_content := st.cur_line_content ++ ws.flatMap wordSpecBoxes } := by
  induction ws with
  | nil =>
    intro st _ hn
    refine ⟨st.cur_box_position, st.cur_box_confidence, ?_⟩
    obtain ⟨tt, cbp, cbt, cbc, bxs, clp, clc, lns⟩ := st
    simp only at hn
    subst hn
    simp [wFeed, List.foldlM_nil, except_pure]
  | cons w rest ih =>
    intro st hwf hn
    rw [List.flatMap_cons, wFeed_append]
    cases w with
    | good c p cf =>
      rw [wFeed_goodWordSpec, except_bind_ok]
      obtain ⟨p', c', hrest⟩ := ih
        { st with cur_box_confidence := cf.getD 0, cur_box_position := p,
                  cur_box_text := none,
                  boxes := st.boxes ++ [⟨c, p, cf.getD 0⟩],
                  cur_line_content := st.cur_line_content ++ [⟨c, p, cf.getD 0⟩] }
        (fun x hx => hwf x (List.mem_cons_of_mem _ hx)) rfl
      refine ⟨p', c', ?_⟩
      rw [hrest]
      obtain ⟨tt, cbp, cbt, cbc, bxs, clp, clc, lns⟩ := st
      simp [wordSpecBoxes]
    | bad t txt =>
      rw [wFeed_badWordSpec t txt st (by simpa [WordSpec.wf] using hwf _ (List.mem_cons_self _ _)) hn,
        except_bind_ok]
      obtain ⟨p', c', hrest⟩ := ih st (fun x hx => hwf x (List.mem_cons_of_mem _ hx)) hn
      refine ⟨p', c', ?_⟩
      rw [hrest]
      simp [wordSpecBoxes]

lemma wFeed_lineSpec (l : LineSpec) (st : WState)
    (hwf : ∀ w ∈ l.words, w.wf = true) (hn : st.cur_box_text = none) :
    ∃ p' c', wFeed (lineSpecEvents l) st =
      .ok { st with cur_box_position := p', cur_box_confidence := c',
                    cur_box_text := none,
                    cur_line_position := l.pos, cur_line_content := [],
                    boxes := st.boxes ++ lineSpecBoxes l,
                    lines := st.lines ++ [⟨lineSpecBoxes l, l.pos⟩] } := by
  unfold lineSpecEvents
  rw [wFeed_append, wFeed_append]
  have h1 : wFeed [MEvent.startTag "span" [("class", "ocr_line"), ("title", lineTitle l.pos)]] st =
      .ok { st with cur_line_position := l.pos, cur_line_content := [],
                    tag_types := "ocr_line" :: st.tag_types } := by
    obtain ⟨tt, cbp, cbt, cbc, bxs, clp, clc, lns⟩ := st
    simp [wFeed, List.foldlM_cons, List.foldlM_nil, wStep, wHandleStart, lastAttr,
      wordTagTypes, lineTagTypes, parsePosition_lineTitle, except_bind_ok, except_pure,
      List.foldl_cons, List.foldl_nil]
  rw [h1, except_bind_ok]
  obtain ⟨p', c', hW⟩ := wFeed_wordList l.words
    { st with cur_line_position := l.pos, cur_line_content := [],
              tag_types := "ocr_line" :: st.tag_types } hwf hn
  rw [hW, except_bind_ok]
  refine ⟨p', c', ?_⟩
  obtain ⟨tt, cbp, cbt, cbc, bxs, clp, clc, lns⟩ := st
  unfold lineSpecBoxes
  simp [wFeed, List.foldlM_cons, List.foldlM_nil, wStep, wHandleEnd,
    wordTagTypes, lineTagTypes, except_bind_ok, except_pure]

lemma wFeed_tessDoc_aux (ls : List LineSpec) :
    ∀ st : WState, (∀ w ∈ allWords ls, w.wf = true) → st.cur_box_text = none →
      ∃ p' c' lp lc, wFeed (tessDoc ls) st =
        .ok { st with cur_box_position := p', cur_box_confidence := c',
                      cur_box_text := none, cur_line_position := lp,
                      cur_line_content := lc,
                      boxes := st.boxes ++ goodBoxes ls,
                      lines := st.lines ++ goodLines ls } := by
  induction ls with
  | nil =>
    intro st _ hn
    refine ⟨st.cur_box_position, st.cur_box_confidence, st.cur_line_position,
      st.cur_line_content, ?_⟩
    obtain ⟨tt, cbp, cbt, cbc, bxs, clp, clc, lns⟩ := st
    simp only at hn
    subst hn
    simp [tessDoc, goodBoxes, goodLines, wFeed, List.foldlM_nil, except_pure]
  | cons l rest ih =>
    intro st hwf hn
    rw [show tessDoc (l :: rest) = lineSpecEvents l ++ tessDoc rest from
      List.flatMap_cons .., wFeed_append]
    obtain ⟨p', c', hL⟩ := wFeed_lineSpec l st
      (fun w hw => hwf w (by unfold allWords; rw [List.flatMap_cons]; exact List.mem_append.mpr (Or.inl hw))) hn
    rw [hL, except_bind_ok]
    obtain ⟨p'', c'', lp, lc, hR⟩ := ih
      { st with cur_box_position := p', cur_box_confidence := c',
                cur_box_text := none, cur_line_position := l.pos,
                cur_line_content := [],
                boxes := st.boxes ++ lineSpecBoxes l,
                lines := st.lines ++ [⟨lineSpecBoxes l, l.pos⟩] }
      (fun w hw => hwf w (by unfold allWords at hw ⊢; rw [List.flatMap_cons]; exact List.mem_append.mpr (Or.inr hw))) rfl
    refine ⟨p'', c'', lp, lc, ?_⟩
    rw [hR]
    obtain ⟨tt, cbp, cbt, cbc, bxs, clp, clc, lns⟩ := st
    simp [goodBoxes, goodLines]

/-- Claim C9: on any Tesseract-dialect document whose word tags are either
well formed or carry a title that fails to parse, the parse succeeds, exactly
the bad tags are discarded, every well-formed word tag is emitted in order,
and a word title lacking only the `x_wconf` token yields confidence 0. -/
theorem claim_C9 (ls : List LineSpec) (hwf : ∀ w ∈ allWords ls, w.wf = true) :
    (wFeed (tessDoc ls) initWState).map WState.boxes = .ok (goodBoxes ls) ∧
    (∀ p : Pos, parseConfidence (lineTitle p) = .ok 0) := by
  constructor
  · obtain ⟨p', c', lp, lc, h⟩ := wFeed_tessDoc_aux ls initWState hwf rfl
    rw [h]
    simp [Except.map, initWState]
  · exact parseConfidence_lineTitle

/-- Claim C9, witness: a concrete document with one line containing a good
word with confidence, a word tag with an unparseable title, and a good word
without an `x_wconf` token. -/
theorem claim_C9_witness :
    (wFeed (tessDoc [⟨((0, 0), (10, 10)), [.good "hi" ((0, 0), (5, 5)) (some 87),
        .bad "no bbox here" "zz", .good "yo" ((6, 0), (10, 5)) none]⟩]) initWState).map
      WState.boxes =
      .ok (goodBoxes [⟨((0, 0), (10, 10)), [.good "hi" ((0, 0), (5, 5)) (some 87),
        .bad "no bbox here" "zz", .good "yo" ((6, 0), (10, 5)) none]⟩]) :=
  (claim_C9 _ (by decide)).1
/-- Invariant of the character-position parser while scanning a
Tesseract-dialect document: the coordinate accumulator is either the empty
list set by an `ocr_line` content tag, or still unset (with no open line). -/
def LInv (st : LState) : Prop :=
  st.char_positions = some [] ∨ (st.char_positions = none ∧ st.line_text = none)

lemma lFeed_wordSpec (w : WordSpec) (st : LState) (h : LInv st) :
    ∃ lt, lFeed (wordSpecEvents w) st = .ok { st with line_text := lt } ∧
      LInv { st with line_text := lt } := by
  obtain ⟨t, d⟩ : ∃ t d, wordSpecEvents w =
      [MEvent.startTag "span" [("class", "ocrx_word"), ("title", t)],
       MEvent.dataTxt d, MEvent.endTag "span"] := by
    cases w with
    | good c p cf => exact ⟨goodWordTitle p cf, c, rfl⟩
    | bad t txt => exact ⟨t, txt, rfl⟩
  obtain ⟨d, hevs⟩ := d
  rw [hevs]
  obtain ⟨bxs, ltx, cps⟩ := st
  cases ltx with
  | none =>
    refine ⟨none, ?_, by simpa [LInv] using h⟩
    simp [lFeed, List.foldlM_cons, List.foldlM_nil, lStep, lHandleStart, lHandleData,
      lHandleEnd, lClassFold, except_bind_ok, except_pure, List.foldl_cons, List.foldl_nil]
  | some s =>
    have hcp : cps = some [] := by
      rcases h with h | ⟨h1, h2⟩
      · simpa using h
      · cases h2
    subst hcp
    refine ⟨some (s ++ d), ?_, Or.inl rfl⟩
    simp [lFeed, List.foldlM_cons, List.foldlM_nil, lStep, lHandleStart, lHandleData,
      lHandleEnd, lClassFold, except_bind_ok, except_pure, List.foldl_cons, List.foldl_nil]

lemma lFeed_wordList (ws : List WordSpec) :
    ∀ st : LState, LInv st →
      ∃ lt, lFeed (ws.flatMap wordSpecEvents) st = .ok { st with line_text := lt } ∧
        LInv { st with line_text := lt } := by
  induction ws with
  | nil =>
    intro st h
    refine ⟨st.line_text, ?_, ?_⟩
    · obtain ⟨bxs, ltx, cps⟩ := st
      simp [lFeed, List.foldlM_nil, except_pure]
    · obtain ⟨bxs, ltx, cps⟩ := st
      simpa [LInv] using h
  | cons w rest ih =>
    intro st h
    rw [List.flatMap_cons, wordSpecEvents.eq_def]
    rw [show lFeed ((match w with
      | WordSpec.good c p cf =>
        [MEvent.startTag "span" [("class", "ocrx_word"), ("title", goodWordTitle p cf)],
         MEvent.dataTxt c, MEvent.endTag "span"]
      | WordSpec.bad t txt =>
        [MEvent.startTag "span" [("class", "ocrx_word"), ("title", t)],
         MEvent.dataTxt txt, MEvent.endTag "span"]) ++ rest.flatMap wordSpecEvents) st =
        lFeed (wordSpecEvents w) st >>= fun st2 => lFeed (rest.flatMap wordSpecEvents) st2 from by
      rw [← wordSpecEvents.eq_def]
      unfold lFeed
      rw [List.foldlM_append]]
    obtain ⟨lt, hw, hinv⟩ := lFeed_wordSpec w st h
    rw [hw, except_bind_ok]
    obtain ⟨lt2, hrest, hinv2⟩ := ih { st with line_text := lt } hinv
    exact ⟨lt2, hrest, hinv2⟩

lemma lFeed_append (a b : List MEvent) (st : LState) :
    lFeed (a ++ b) st = lFeed a st >>= fun st2 => lFeed b st2 := by
  unfold lFeed
  rw [List.foldlM_append]

lemma lFeed_lineSpec (l : LineSpec) (st : LState) (h : LInv st) :
    ∃ lt, lFeed (lineSpecEvents l) st =
      .ok { st with line_text := lt, char_positions := some [] } := by
  unfold lineSpecEvents
  rw [lFeed_append, lFeed_append]
  have h1 : lFeed [MEvent.startTag "span" [("class", "ocr_line"), ("title", lineTitle l.pos)]] st =
      .ok { st with line_text := some "", char_positions := some [] } := by
    obtain ⟨bxs, ltx, cps⟩ := st
    simp [lFeed, List.foldlM_cons, List.foldlM_nil, lStep, lHandleStart, lClassFold,
      except_bind_ok, except_pure, List.foldl_cons, List.foldl_nil]
  rw [h1, except_bind_ok]
  obtain ⟨lt, hW, hinv⟩ := lFeed_wordList l.words
    { st with line_text := some "", char_positions := some [] } (Or.inl rfl)
  rw [hW, except_bind_ok]
  refine ⟨{ { st with line_text := some "", char_positions := some [] } with
    line_text := lt }.line_text, ?_⟩
  obtain ⟨bxs, ltx, cps⟩ := st
  cases lt with
  | none =>
    simp [lFeed, List.foldlM_cons, List.foldlM_nil, lStep, lHandleEnd,
      except_bind_ok, except_pure]
  | some s =>
    simp [lFeed, List.foldlM_cons, List.foldlM_nil, lStep, lHandleEnd,
      except_bind_ok, except_pure]

lemma lFeed_tessDoc (ls : List LineSpec) :
    ∀ st : LState, LInv st →
      ∃ lt cp, lFeed (tessDoc ls) st = .ok { st with line_text := lt, char_positions := cp } ∧
        LInv { st with line_text := lt, char_positions := cp } := by
  induction ls with
  | nil =>
    intro st h
    refine ⟨st.line_text, st.char_positions, ?_, ?_⟩
    · obtain ⟨bxs, ltx, cps⟩ := st
      simp [tessDoc, lFeed, List.foldlM_nil, except_pure]
    · obtain ⟨bxs, ltx, cps⟩ := st
      simpa [LInv] using h
  | cons l rest ih =>
    intro st h
    rw [show tessDoc (l :: rest) = lineSpecEvents l ++ tessDoc rest from
      List.flatMap_cons .., lFeed_append]
    obtain ⟨lt, hL⟩ := lFeed_lineSpec l st h
    rw [hL, except_bind_ok]
    obtain ⟨lt2, cp2, hR, hinv⟩ := ih { st with line_text := lt, char_positions := some [] }
      (Or.inl rfl)
    exact ⟨lt2, cp2, hR, hinv⟩
lemma wordRead_of_nonempty (doc : List MEvent) (st1 : WState)
    (h : wFeed doc initWState = .ok st1) (hb : st1.boxes ≠ []) :
    wordBoxBuilderRead doc = .ok (popTrailingEmpty st1.boxes) := by
  unfold wordBoxBuilderRead
  rw [h, except_bind_ok]
  simp [hb, except_pure]

lemma wordRead_of_empty (doc : List MEvent) (st1 : WState) (st2 : LState)
    (h1 : wFeed doc initWState = .ok st1) (hb1 : st1.boxes = [])
    (h2 : lFeed doc initLState = .ok st2) (hb2 : st2.boxes = []) :
    wordBoxBuilderRead doc = .ok [] := by
  unfold wordBoxBuilderRead
  rw [h1, except_bind_ok]
  simp only [hb1, ne_eq, not_true_eq_false, if_false]
  rw [h2, except_bind_ok]
  simp [hb2, except_pure]

lemma lineRead_of_nonempty (doc : List MEvent) (st1 : WState)
    (h : wFeed doc initWState = .ok st1) (hb : st1.boxes ≠ []) :
    lineBoxBuilderRead doc = .ok st1.lines := by
  unfold lineBoxBuilderRead
  rw [h, except_bind_ok]
  simp [hb, except_pure]

lemma lineRead_of_empty (doc : List MEvent) (st1 : WState) (st2 : LState)
    (h1 : wFeed doc initWState = .ok st1) (hb1 : st1.boxes = [])
    (h2 : lFeed doc initLState = .ok st2) (hb2 : st2.boxes = []) :
    lineBoxBuilderRead doc = .ok [] := by
  unfold lineBoxBuilderRead
  rw [h1, except_bind_ok]
  simp only [hb1, ne_eq, not_true_eq_false, if_false]
  rw [h2, except_bind_ok]
  simp [hb2, except_pure]


lemma flatMap_goodLines (ls : List LineSpec) :
    (goodLines ls).flatMap LineBox.word_boxes = goodBoxes ls := by
  unfold goodLines goodBoxes
  induction ls with
  | nil => rfl
  | cons l rest ih => simp only [List.map_cons, List.flatMap_cons, ih]

lemma digitsOf_lt_ten (n : Nat) (h : n < 10) : digitsOf n = [n] := by
  unfold digitsOf
  rw [dif_pos h]

lemma intChars_zero : intChars 0 = ['0'] := by
  unfold intChars natChars
  rw [if_neg (by decide), show (0 : Int).toNat = 0 from rfl, digitsOf_lt_ten 0 (by decide)]
  rfl

lemma intChars_four : intChars 4 = ['4'] := by
  unfold intChars natChars
  rw [if_neg (by decide), show (4 : Int).toNat = 4 from rfl, digitsOf_lt_ten 4 (by decide)]
  rfl

lemma intChars_nine : intChars 9 = ['9'] := by
  unfold intChars natChars
  rw [if_neg (by decide), show (9 : Int).toNat = 9 from rfl, digitsOf_lt_ten 9 (by decide)]
  rfl

lemma bboxChars_0099 : bboxChars ((0, 0), (9, 9)) = "bbox 0 0 9 9".data := by
  unfold bboxChars
  rw [show intChars ((((0, 0), (9, 9)) : Pos)).1.1 = ['0'] from intChars_zero,
    show intChars ((((0, 0), (9, 9)) : Pos)).2.1 = ['9'] from intChars_nine]
  decide

lemma bboxChars_0044 : bboxChars ((0, 0), (4, 4)) = "bbox 0 0 4 4".data := by
  unfold bboxChars
  rw [show intChars ((((0, 0), (4, 4)) : Pos)).1.1 = ['0'] from intChars_zero,
    show intChars ((((0, 0), (4, 4)) : Pos)).2.1 = ['4'] from intChars_four]
  decide

lemma lineTitle_0099 : lineTitle ((0, 0), (9, 9)) = "bbox 0 0 9 9" := by
  unfold lineTitle
  rw [bboxChars_0099]

lemma lineTitle_0044 : lineTitle ((0, 0), (4, 4)) = "bbox 0 0 4 4" := by
  unfold lineTitle
  rw [bboxChars_0044]

lemma tessDoc_c7cex :
    tessDoc [⟨((0, 0), (9, 9)), [WordSpec.good "" ((0, 0), (4, 4)) none]⟩] =
      [MEvent.startTag "span" [("class", "ocr_line"), ("title", "bbox 0 0 9 9")],
       MEvent.startTag "span" [("class", "ocrx_word"), ("title", "bbox 0 0 4 4")],
       MEvent.dataTxt "", MEvent.endTag "span", MEvent.endTag "span"] := by
  simp only [tessDoc, List.flatMap_cons, List.flatMap_nil, List.append_nil,
    lineSpecEvents, wordSpecEvents, goodWordTitle, lineTitle_0099, lineTitle_0044]
  rfl

/-- Claim C7, counterexample: a Tesseract-dialect document whose single line
contains one well-formed word span with empty text.  `WordBoxBuilder.read_file`
pops the trailing empty-content box from its flat list and returns `[]`, but
`LineBoxBuilder.read_file` pops only from the flat `boxes` list and returns the
parsed `lines`, whose `LineBox` still holds that box — the flattened contents
differ (`[]` vs `[""]`). -/
theorem claim_C7_cex :
    (wordBoxBuilderRead
        (tessDoc [⟨((0, 0), (9, 9)), [WordSpec.good "" ((0, 0), (4, 4)) none]⟩])).map
        (fun bs => bs.map Box.content) = .ok [] ∧
    (lineBoxBuilderRead
        (tessDoc [⟨((0, 0), (9, 9)), [WordSpec.good "" ((0, 0), (4, 4)) none]⟩])).map
        (fun lls => (lls.flatMap LineBox.word_boxes).map Box.content) = .ok [""] ∧
    (Except.ok [] : Except PErr (List String)) ≠ .ok [""] := by
  rw [tessDoc_c7cex]
  decide

/-- Claim C7, amended: on any Tesseract-dialect document (`ocr_line` spans
containing word spans that are well formed or unparseable-and-discarded),
`WordBoxBuilder.read_file` and `LineBoxBuilder.read_file` produce word boxes
whose flattened contents (ignoring line grouping) are identical and
identically ordered, provided the last emitted word box does not have empty
content; a trailing empty-content word is popped from the word builder's flat
result but survives inside the line builder's lines. -/
theorem claim_C7_amended (ls : List LineSpec)
    (hwf : ∀ w ∈ allWords ls, w.wf = true)
    (hlast : ∀ b ∈ (goodBoxes ls).getLast?.toList, b.content ≠ "") :
    (wordBoxBuilderRead (tessDoc ls)).map (fun bs => bs.map Box.content) =
      (lineBoxBuilderRead (tessDoc ls)).map
        (fun lls => (lls.flatMap LineBox.word_boxes).map Box.content) := by
  obtain ⟨p', c', lp, lc, hW⟩ := wFeed_tessDoc_aux ls initWState hwf rfl
  by_cases hz : goodBoxes ls = []
  · obtain ⟨lt, cp, hL, _⟩ := lFeed_tessDoc ls initLState (Or.inr ⟨rfl, rfl⟩)
    rw [wordRead_of_empty _ _ _ hW (by simp [initWState, hz]) hL (by simp [initLState]),
      lineRead_of_empty _ _ _ hW (by simp [initWState, hz]) hL (by simp [initLState])]
    rfl
  · rw [wordRead_of_nonempty _ _ hW (by simpa [initWState] using hz),
      lineRead_of_nonempty _ _ hW (by simpa [initWState] using hz)]
    simp only [Except.map, initWState]
    have hpop : popTrailingEmpty (goodBoxes ls) = goodBoxes ls := by
      unfold popTrailingEmpty
      cases hg : (goodBoxes ls).getLast? with
      | none => rfl
      | some b => exact if_neg (hlast b (by rw [hg]; simp))
    rw [show ([] : List Box) ++ goodBoxes ls = goodBoxes ls from rfl,
      show ([] : List LineBox) ++ goodLines ls = goodLines ls from rfl,
      hpop, flatMap_goodLines]

/-- Claim C7, witness: the amended equivalence at a concrete two-line document
whose last word has non-empty content. -/
theorem claim_C7_witness :
    (wordBoxBuilderRead (tessDoc [⟨((0, 0), (9, 9)), [.good "ab" ((0, 0), (4, 4)) (some 50)]⟩,
        ⟨((0, 10), (9, 19)), [.good "cd" ((0, 10), (4, 14)) none]⟩])).map
        (fun bs => bs.map Box.content) =
      (lineBoxBuilderRead (tessDoc [⟨((0, 0), (9, 9)), [.good "ab" ((0, 0), (4, 4)) (some 50)]⟩,
          ⟨((0, 10), (9, 19)), [.good "cd" ((0, 10), (4, 14)) none]⟩])).map
        (fun lls => (lls.flatMap LineBox.word_boxes).map Box.content) :=
  claim_C7_amended [⟨((0, 0), (9, 9)), [.good "ab" ((0, 0), (4, 4)) (some 50)]⟩,
    ⟨((0, 10), (9, 19)), [.good "cd" ((0, 10), (4, 14)) none]⟩] (by decide) (by decide)
